import Mathlib

/-!
# zencloud: file-storage HTTP handlers

A shallow embedding of `backend/cmd/zencloud/main.go`: the four HTTP handlers
(`uploadHandler`, `downloadHandler`, `listFilesHandler`, `deleteFileHandler`)
over two stateful resources, the `filemeta` table and the `./uploads` directory.

Go strings are lists of characters.  The calls the handlers make into the Go
standard library (`filepath.Ext`, `filepath.Join`, `database/sql`, `os`,
`net/http`) are modelled by their Unix behaviour; every outcome that the
handler cannot control (a failing call, the generated identifier, the clock)
is read from an explicit `Env`.
-/

namespace Zencloud

/-- Go `string`. -/
abbrev GoString := List Char

/-- File contents. -/
abbrev Bytes := List (Fin 256)

/-! ## `path/filepath` (Unix) -/

/-- Go `os.IsPathSeparator` on Unix. -/
def isPathSeparator (c : Char) : Bool := c == '/'

/-- Loop of `filepath.Ext`: the argument `i + 1` examines `path[i]`, the
argument `0` is the exit `i < 0`. -/
def extLoop (path : GoString) : Nat → GoString
  | 0 => []
  | i + 1 =>
    if isPathSeparator (path.getD i '/') then []
    else if path.getD i '/' = '.' then path.drop i
    else extLoop path i

/-- Go `filepath.Ext`:
`for i := len(path) - 1; i >= 0 && !os.IsPathSeparator(path[i]); i--`
returning `path[i:]` at the first `.` met, and `""` otherwise. -/
def Ext (path : GoString) : GoString := extLoop path path.length

/-- Inner loop of the `..` case of `filepath.Clean`, after `out.w--`:
`for out.w > dotdot && !os.IsPathSeparator(out.index(out.w)) { out.w-- }`. -/
def backtrack (buf : GoString) (dotdot : Nat) : Nat → Nat
  | 0 => 0
  | w + 1 =>
    if dotdot < w + 1 ∧ isPathSeparator (buf.getD (w + 1) '/') = false then
      backtrack buf dotdot w
    else w + 1

/-- Main loop of `filepath.Clean`.  `rest` is `path[r:]`, `out` is the buffer
`buf[:w]`; each iteration consumes at least one byte of `rest`, so a fuel of
`len(path) + 1` is never exhausted. -/
def cleanLoop (rooted : Bool) : Nat → GoString → GoString → Nat → GoString
  | 0, _, out, _ => out
  | _ + 1, [], out, _ => out
  | fuel + 1, c :: t, out, dotdot =>
    if isPathSeparator c then
      -- empty path element
      cleanLoop rooted fuel t out dotdot
    else if c = '.' ∧ (t = [] ∨ (t.head?.map isPathSeparator) = some true) then
      -- . element
      cleanLoop rooted fuel t out dotdot
    else if c = '.' ∧ t.head? = some '.' ∧
        (t.tail = [] ∨ (t.tail.head?.map isPathSeparator) = some true) then
      -- .. element: remove to last separator
      if dotdot < out.length then
        cleanLoop rooted fuel t.tail (out.take (backtrack out dotdot (out.length - 1))) dotdot
      else if rooted = false then
        let out1 := if 0 < out.length then out ++ ['/'] else out
        cleanLoop rooted fuel t.tail (out1 ++ ['.', '.']) (out1.length + 2)
      else
        cleanLoop rooted fuel t.tail out dotdot
    else
      -- real path element
      let out1 :=
        if (rooted = true ∧ out.length ≠ 1) ∨ (rooted = false ∧ out.length ≠ 0) then out ++ ['/']
        else out
      cleanLoop rooted fuel ((c :: t).dropWhile (fun x => !isPathSeparator x))
        (out1 ++ (c :: t).takeWhile (fun x => !isPathSeparator x)) dotdot

/-- Go `filepath.Clean` on Unix (no volume name). -/
def Clean (path : GoString) : GoString :=
  match path with
  | [] => ['.']
  | c :: t =>
    let out :=
      if isPathSeparator c then cleanLoop true (t.length + 1) t ['/'] 1
      else cleanLoop false ((c :: t).length + 1) (c :: t) [] 0
    if out.length = 0 then ['.'] else out

/-- Go `filepath.Join` of two elements: the elements from the first non-empty
one on are joined with the separator and the result is cleaned. -/
def Join (a b : GoString) : GoString :=
  if a ≠ [] then Clean (a ++ '/' :: b)
  else if b ≠ [] then Clean b
  else []

/-- First loop of `filepath.Base`, on `path[:n]`:
`for len(path) > 0 && os.IsPathSeparator(path[len(path)-1])` strips the
trailing separators. -/
def stripTrailing (path : GoString) : Nat → GoString
  | 0 => []
  | n + 1 =>
    if isPathSeparator (path.getD n '/') then stripTrailing path n
    else path.take (n + 1)

/-- Second loop of `filepath.Base`: the argument `i + 1` examines `path[i]`,
the argument `0` is the exit `i < 0`; at a separator the result is
`path[i+1:]`. -/
def baseLoop (path : GoString) : Nat → GoString
  | 0 => path
  | i + 1 =>
    if isPathSeparator (path.getD i '/') then path.drop (i + 1)
    else baseLoop path i

/-- Go `filepath.Base` on Unix (no volume name): the last element of the path,
`.` for the empty path and `/` for a path of separators only. -/
def Base (path : GoString) : GoString :=
  if path = [] then ['.']
  else
    let p := stripTrailing path path.length
    let q := baseLoop p p.length
    if q = [] then ['/'] else q

/-- The constant `uploadDir`. -/
def uploadDir : GoString := "./uploads".toList

/-! ## Data model -/

/-- The Go struct `FileMeta`; `UploadDate` is a clock reading. -/
structure FileMeta where
  ID : GoString
  FileName : GoString
  Extension : GoString
  UploadDate : Nat
  deriving DecidableEq, Repr

/-- Rows of the table `filemeta`, in the order the database returns them. -/
abbrev Table := List FileMeta

/-- Regular files of the filesystem, by path. -/
abbrev Disk := List (GoString × Bytes)

/-- The two stateful resources.  `db = none` is the package variable `db`
left `nil` by `initDB` (credentials absent from the environment). -/
structure Store where
  db : Option Table
  disk : Disk
  deriving DecidableEq, Repr

/-- The `*multipart.FileHeader` and content that `r.FormFile("file")` returns.
The form reader of `mime/multipart` sets `Filename` to `filepath.Base` of the
name the client sent. -/
structure FileHeader where
  Filename : GoString
  content : Bytes
  deriving DecidableEq, Repr

/-- What a handler reads of the `*http.Request`: the method, the value of
`r.URL.Query().Get("id")` (empty when the parameter is absent) and the outcome
of parsing the multipart form: a parse error, no field `file`, or the file.
Requests carry no `Range` or conditional headers. -/
structure Request where
  method : GoString
  id : GoString
  form : Except GoString (Option FileHeader)

/-- Everything a handler run takes from outside: the value of
`uuid.New().String()`, the value of `time.Now()`, and for each library call
whether it fails and with which error message. -/
structure Env where
  newID : GoString
  now : Nat
  /-- Failure of `os.Create`. -/
  createErr : Option GoString
  /-- Failure of `io.Copy` after it wrote this many bytes. -/
  copyErr : Option (Nat × GoString)
  /-- Failure of `db.Exec` of the `INSERT`. -/
  insertErr : Option GoString
  /-- Failure of `db.QueryRow(...).Scan` for a reason other than a missing row. -/
  queryRowErr : Option GoString
  /-- Failure of `db.Query`. -/
  queryErr : Option GoString
  /-- Row index at which `rows.Next` returns false because iteration failed. -/
  nextErr : Option Nat
  /-- Failure of `rows.Scan` at this row index. -/
  scanErr : Option (Nat × GoString)
  /-- Failure of `os.Remove` for a reason other than a missing file. -/
  removeErr : Option GoString
  /-- Failure of `db.Exec` of the `DELETE`. -/
  deleteErr : Option GoString

/-- An environment in which no library call fails. -/
def Env.ok (newID : GoString) (now : Nat) : Env :=
  ⟨newID, now, none, none, none, none, none, none, none, none, none⟩

/-- A Go slice of `FileMeta`: `none` is the `nil` slice. -/
abbrev Slice := Option (List FileMeta)

/-- Go `append(files, meta)`. -/
def Slice.append (files : Slice) (m : FileMeta) : Slice :=
  match files with
  | none => some [m]
  | some l => some (l ++ [m])

/-- The JSON document `json.NewEncoder(w).Encode(v)` writes for the values the
handlers encode: a struct is an object, a non-nil slice is an array, the nil
slice is `null`. -/
inductive Json where
  | null
  | object (m : FileMeta)
  | array (ms : List FileMeta)
  deriving DecidableEq, Repr

/-- Go `encoding/json` on a `[]FileMeta`. -/
def encodeSlice (files : Slice) : Json :=
  match files with
  | none => Json.null
  | some l => Json.array l

/-- Response body. -/
inductive Body where
  | empty
  | text (s : GoString)
  | json (j : Json)
  | file (b : Bytes)
  deriving DecidableEq, Repr

/-- How a handler run ends: a response, or a run-time panic (nil dereference
of `db`), which writes no response. -/
inductive Outcome where
  | response (status : Nat) (body : Body)
  | panicked
  deriving DecidableEq, Repr

/-- Calls into the database and the filesystem, in the order they are made. -/
inductive Call where
  | osCreate (path : GoString)
  | ioCopy (path : GoString)
  | osRemove (path : GoString)
  | serveFile (path : GoString)
  | dbInsert (m : FileMeta)
  | dbQueryRow (id : GoString)
  | dbQuery
  | dbDelete (id : GoString)
  deriving DecidableEq, Repr

/-- Result of one handler run. -/
structure Result where
  outcome : Outcome
  store : Store
  calls : List Call
  deriving DecidableEq, Repr

/-- Status of a response; a panic has none. -/
def Outcome.status? : Outcome → Option Nat
  | .response st _ => some st
  | .panicked => none

/-- The records of a response whose body is a JSON array; none otherwise. -/
def Outcome.records : Outcome → List FileMeta
  | .response _ (.json (.array ms)) => ms
  | _ => []

/-! ## Library calls -/

def MethodPost : GoString := "POST".toList
def MethodDelete : GoString := "DELETE".toList
def MethodOptions : GoString := "OPTIONS".toList
def MethodHead : GoString := "HEAD".toList

def StatusOK : Nat := 200
def StatusBadRequest : Nat := 400
def StatusNotFound : Nat := 404
def StatusMethodNotAllowed : Nat := 405
def StatusInternalServerError : Nat := 500

/-- Go `http.Error`: the status and the message followed by a newline. -/
def httpError (msg : GoString) (code : Nat) : Outcome :=
  .response code (.text (msg ++ ['\n']))

/-- Content of the file at `path`. -/
def Disk.read (d : Disk) (path : GoString) : Option Bytes :=
  (d.find? (fun e => e.1 = path)).map Prod.snd

/-- The disk with the file at `path` holding `b`. -/
def Disk.write (d : Disk) (path : GoString) (b : Bytes) : Disk :=
  (path, b) :: d.filter (fun e => e.1 ≠ path)

/-- The disk without the file at `path`. -/
def Disk.erase (d : Disk) (path : GoString) : Disk :=
  d.filter (fun e => e.1 ≠ path)

/-- Go `os.Create`: creates or truncates the file. -/
def osCreate (env : Env) (d : Disk) (path : GoString) : Except GoString Disk :=
  match env.createErr with
  | some e => .error e
  | none => .ok (d.write path [])

/-- Go `io.Copy(dst, file)` into the file just created: on failure the bytes
written so far stay in the file. -/
def ioCopy (env : Env) (d : Disk) (path : GoString) (content : Bytes) :
    Disk × Option GoString :=
  match env.copyErr with
  | some (n, e) => (d.write path (content.take n), some e)
  | none => (d.write path content, none)

/-- Go `os.Remove` of a regular file. -/
def osRemove (env : Env) (d : Disk) (path : GoString) : Except GoString Disk :=
  match env.removeErr with
  | some e => .error e
  | none =>
    match d.read path with
    | none => .error ("remove ".toList ++ path ++ ": no such file or directory".toList)
    | some _ => .ok (d.erase path)

/-- The statement `INSERT INTO filemeta ... VALUES ($1, $2, $3, $4)`; `id` is
the primary key. -/
def dbInsert (env : Env) (tbl : Table) (m : FileMeta) : Except GoString Table :=
  match env.insertErr with
  | some e => .error e
  | none =>
    if tbl.any (fun x => x.ID = m.ID) then
      .error "pq: duplicate key value violates unique constraint".toList
    else .ok (tbl ++ [m])

/-- The call `db.QueryRow("SELECT ... WHERE id=$1", id).Scan(...)`. -/
def dbQueryRow (env : Env) (tbl : Table) (id : GoString) : Except GoString FileMeta :=
  match env.queryRowErr with
  | some e => .error e
  | none =>
    match tbl.find? (fun x => x.ID = id) with
    | none => .error "sql: no rows in result set".toList
    | some m => .ok m

/-- The statement `DELETE FROM filemeta WHERE id=$1`. -/
def dbDelete (env : Env) (tbl : Table) (id : GoString) : Except GoString Table :=
  match env.deleteErr with
  | some e => .error e
  | none => .ok (tbl.filter (fun x => x.ID ≠ id))

/-- Go `http.ServeFile` for a request without `Range` or conditional headers
and a URL path without `..`: a missing file is answered 404, a `HEAD` request
gets no body. -/
def serveFile (d : Disk) (r : Request) (path : GoString) : Outcome :=
  match d.read path with
  | none => httpError "404 page not found".toList StatusNotFound
  | some b =>
    if r.method = MethodHead then .response StatusOK .empty
    else .response StatusOK (.file b)

/-! ## Handlers -/

/-- Go `uploadHandler`. -/
def uploadHandler (env : Env) (s : Store) (r : Request) : Result :=
  if r.method ≠ MethodPost then
    ⟨httpError "Method not allowed".toList StatusMethodNotAllowed, s, []⟩
  else
    match r.form with
    | .error e => ⟨httpError e StatusBadRequest, s, []⟩
    | .ok none => ⟨httpError "File not provided".toList StatusBadRequest, s, []⟩
    | .ok (some handler) =>
      -- generate unique file id
      let id := env.newID
      let ext := Ext handler.Filename
      -- final file path
      let filePath := Join uploadDir (id ++ ext)
      match osCreate env s.disk filePath with
      | .error e => ⟨httpError e StatusInternalServerError, s, [.osCreate filePath]⟩
      | .ok d1 =>
        -- copy file content
        match ioCopy env d1 filePath handler.content with
        | (d2, some e) =>
          ⟨httpError e StatusInternalServerError, { s with disk := d2 },
            [.osCreate filePath, .ioCopy filePath]⟩
        | (d2, none) =>
          -- save metadata to the database
          let meta : FileMeta := ⟨id, handler.Filename, ext, env.now⟩
          let calls := [.osCreate filePath, .ioCopy filePath, .dbInsert meta]
          match s.db with
          | none => ⟨.panicked, { s with disk := d2 }, calls⟩
          | some tbl =>
            match dbInsert env tbl meta with
            | .error e =>
              ⟨httpError ("Database error: ".toList ++ e) StatusInternalServerError,
                { s with disk := d2 }, calls⟩
            | .ok tbl1 =>
              ⟨.response StatusOK (.json (.object meta)), ⟨some tbl1, d2⟩, calls⟩

/-- Go `downloadHandler`. -/
def downloadHandler (env : Env) (s : Store) (r : Request) : Result :=
  -- Retrieve the id parameter
  let id := r.id
  if id = [] then
    ⟨httpError "Missing id parameter".toList StatusBadRequest, s, []⟩
  else
    -- Lookup metadata in db
    match s.db with
    | none => ⟨.panicked, s, [.dbQueryRow id]⟩
    | some tbl =>
      match dbQueryRow env tbl id with
      | .error _ => ⟨httpError "File not found".toList StatusNotFound, s, [.dbQueryRow id]⟩
      | .ok fileMeta =>
        let filePath := Join uploadDir (fileMeta.ID ++ fileMeta.Extension)
        ⟨serveFile s.disk r filePath, s, [.dbQueryRow id, .serveFile filePath]⟩

/-- The loop `for rows.Next() { ... rows.Scan ... files = append(files, meta) }`
of `listFilesHandler`; `k` is the index of the next row.  The loop ends when
`rows.Next` returns false, at the end of the rows or at an iteration error
(the handler does not look at `rows.Err`). -/
def scanRows (env : Env) : List FileMeta → Nat → Slice → Except GoString Slice
  | [], _, files => .ok files
  | m :: rest, k, files =>
    if env.nextErr = some k then .ok files
    else
      match env.scanErr with
      | some (j, e) =>
        if j = k then .error e else scanRows env rest (k + 1) (files.append m)
      | none => scanRows env rest (k + 1) (files.append m)

/-- Go `listFilesHandler`. -/
def listFilesHandler (env : Env) (s : Store) (_r : Request) : Result :=
  match s.db with
  | none => ⟨.panicked, s, [.dbQuery]⟩
  | some tbl =>
    match env.queryErr with
    | some e => ⟨httpError e StatusInternalServerError, s, [.dbQuery]⟩
    | none =>
      match scanRows env tbl 0 none with
      | .error e => ⟨httpError e StatusInternalServerError, s, [.dbQuery]⟩
      | .ok files => ⟨.response StatusOK (.json (encodeSlice files)), s, [.dbQuery]⟩

/-- Go `deleteFileHandler`. -/
def deleteFileHandler (env : Env) (s : Store) (r : Request) : Result :=
  -- Expecting DELETE method
  if r.method = MethodOptions then
    ⟨.response StatusOK .empty, s, []⟩
  else if r.method ≠ MethodDelete then
    ⟨httpError "Method not allowed".toList StatusMethodNotAllowed, s, []⟩
  else
    let id := r.id
    if id = [] then
      ⟨httpError "Missing id parameter".toList StatusBadRequest, s, []⟩
    else
      -- get the file's metadata so we can remove the file from disk
      match s.db with
      | none => ⟨.panicked, s, [.dbQueryRow id]⟩
      | some tbl =>
        match dbQueryRow env tbl id with
        | .error _ =>
          ⟨httpError "File not found".toList StatusNotFound, s, [.dbQueryRow id]⟩
        | .ok fileMeta =>
          -- Delete file from disk
          let filePath := Join uploadDir (fileMeta.ID ++ fileMeta.Extension)
          match osRemove env s.disk filePath with
          | .error e =>
            ⟨httpError ("Error deleting file from disk: ".toList ++ e)
                StatusInternalServerError, s, [.dbQueryRow id, .osRemove filePath]⟩
          | .ok d1 =>
            -- Remove metadata from the database
            let calls := [.dbQueryRow id, .osRemove filePath, .dbDelete id]
            match dbDelete env tbl id with
            | .error e =>
              ⟨httpError ("Error deleting metadata: ".toList ++ e)
                  StatusInternalServerError, ⟨some tbl, d1⟩, calls⟩
            | .ok tbl1 =>
              ⟨.response StatusOK (.text "File deleted successfully".toList),
                ⟨some tbl1, d1⟩, calls⟩

/-- Go `corsMiddleware`: a pre-flight request is answered without reaching the
wrapped handler (the three response headers are not modelled). -/
def corsMiddleware (next : Env → Store → Request → Result)
    (env : Env) (s : Store) (r : Request) : Result :=
  if r.method = MethodOptions then ⟨.response StatusOK .empty, s, []⟩
  else next env s r

/-! ## Concrete runs -/

/-- A generated identifier. -/
def exampleID : GoString := "123e4567-e89b-42d3-a456-426614174000".toList

/-- The bytes `hello`. -/
def helloBytes : Bytes := [104, 101, 108, 108, 111]

/-- The request `POST /upload` with field `file` = `hello` under the given name. -/
def uploadRequest (name : String) : Request :=
  ⟨MethodPost, [], .ok (some ⟨name.toList, helloBytes⟩)⟩

/-- A request with the given method and `id` parameter and no form. -/
def idRequest (method : String) (id : GoString) : Request :=
  ⟨method.toList, id, .ok none⟩

/-- The store at startup: empty table, empty upload directory. -/
def emptyStore : Store := ⟨some [], []⟩

/-- The store after `hello` was uploaded as `a.txt` into the empty store. -/
def uploadedStore : Store :=
  (uploadHandler (Env.ok exampleID 0) emptyStore (uploadRequest "a.txt")).store

/-- The record of that upload. -/
def uploadedMeta : FileMeta := ⟨exampleID, "a.txt".toList, ".txt".toList, 0⟩

/-- An environment whose `os.Remove` fails. -/
def removeFails : Env := { Env.ok [] 1 with removeErr := some "permission denied".toList }

/-- A second generated identifier. -/
def secondID : GoString := "223e4567-e89b-42d3-a456-426614174000".toList

/-- The store after `hello` was uploaded a second time under the name `a.txt`. -/
def uploadedTwiceStore : Store :=
  (uploadHandler (Env.ok secondID 1) uploadedStore (uploadRequest "a.txt")).store

/-- An environment whose single-row lookup fails. -/
def lookupFails : Env := { Env.ok [] 2 with queryRowErr := some "connection refused".toList }

/-- An environment whose row iteration fails after the first row. -/
def iterationFails : Env := { Env.ok [] 2 with nextErr := some 1 }

/-! ## The wording of the specification -/

/-- The substring of `f` from its last `.` onward, empty when `f` has no `.`. -/
def lastDotSuffix : GoString → GoString
  | [] => []
  | c :: t => if '.' ∈ t then lastDotSuffix t else if c = '.' then c :: t else []

/-- The final element of a path: what follows its last `/`. -/
def lastElement : GoString → GoString
  | [] => []
  | c :: t => if '/' ∈ t then lastElement t else if c = '/' then t else c :: t

/-! ## Lemmas on `filepath.Ext` -/

theorem lastDotSuffix_eq_nil_iff (x : GoString) : lastDotSuffix x = [] ↔ '.' ∉ x := by
  induction x with
  | nil => simp [lastDotSuffix]
  | cons c t ih =>
    by_cases h : '.' ∈ t
    · simp [lastDotSuffix, h, ih]
    · by_cases hc : c = '.'
      · simp [lastDotSuffix, h, hc]
      · have hc2 : ¬ '.' = c := fun e => hc e.symm
        simp [lastDotSuffix, h, hc, hc2]

theorem lastDotSuffix_snoc (x : GoString) (c : Char) :
    lastDotSuffix (x ++ [c]) =
      if c = '.' then ['.'] else if '.' ∈ x then lastDotSuffix x ++ [c] else [] := by
  induction x with
  | nil =>
    by_cases hc : c = '.' <;> simp [lastDotSuffix, hc]
  | cons a t ih =>
    change lastDotSuffix (a :: (t ++ [c])) = _
    by_cases hc : c = '.'
    · subst hc
      have : '.' ∈ t ++ ['.'] := by simp
      simp only [lastDotSuffix, this, if_true, ih]
    · have hc2 : ¬ '.' = c := fun e => hc e.symm
      by_cases ht : '.' ∈ t
      · have : '.' ∈ t ++ [c] := by simp [ht]
        have h2 : '.' ∈ a :: t := by simp [ht]
        simp only [lastDotSuffix, this, if_true, ih, hc, if_false, ht, h2]
      · have : ¬ '.' ∈ t ++ [c] := by simp [ht, hc2]
        by_cases ha : a = '.'
        · simp [lastDotSuffix, this, hc, ht, ha]
        · have ha2 : ¬ '.' = a := fun e => ha e.symm
          simp [lastDotSuffix, this, hc, ht, ha, ha2, hc2]

theorem lastElement_snoc (x : GoString) (c : Char) :
    lastElement (x ++ [c]) = if c = '/' then [] else lastElement x ++ [c] := by
  induction x with
  | nil =>
    by_cases hc : c = '/' <;> simp [lastElement, hc]
  | cons a t ih =>
    change lastElement (a :: (t ++ [c])) = _
    by_cases hc : c = '/'
    · subst hc
      have : '/' ∈ t ++ ['/'] := by simp
      simp only [lastElement, this, if_true, ih]
    · have hc2 : ¬ '/' = c := fun e => hc e.symm
      by_cases ht : '/' ∈ t
      · have : '/' ∈ t ++ [c] := by simp [ht]
        simp only [lastElement, this, if_true, ih, hc, if_false, ht]
      · have : ¬ '/' ∈ t ++ [c] := by simp [ht, hc2]
        by_cases ha : a = '/'
        · simp [lastElement, this, hc, ht, ha]
        · simp [lastElement, this, hc, ht, ha]

theorem lastElement_no_separator (x : GoString) : '/' ∉ lastElement x := by
  induction x with
  | nil => simp [lastElement]
  | cons a t ih =>
    by_cases ht : '/' ∈ t
    · simpa [lastElement, ht] using ih
    · by_cases ha : a = '/'
      · simp [lastElement, ht, ha]
      · have ha2 : ¬ '/' = a := fun e => ha e.symm
        simp [lastElement, ht, ha, ha2]

theorem lastElement_of_no_separator (x : GoString) (h : '/' ∉ x) : lastElement x = x := by
  induction x with
  | nil => simp [lastElement]
  | cons a t _ =>
    have ht : '/' ∉ t := fun m => h (List.mem_cons_of_mem _ m)
    have ha : a ≠ '/' := fun e => h (by simp [e])
    simp [lastElement, ht, ha]

theorem lastDotSuffix_subset (x : GoString) : ∀ c ∈ lastDotSuffix x, c ∈ x := by
  induction x with
  | nil => simp [lastDotSuffix]
  | cons a t ih =>
    intro c hc
    by_cases ht : '.' ∈ t
    · simp only [lastDotSuffix, ht, if_true] at hc
      exact List.mem_cons_of_mem _ (ih c hc)
    · by_cases ha : a = '.'
      · simpa [lastDotSuffix, ht, ha] using hc
      · simp [lastDotSuffix, ht, ha] at hc

theorem lastDotSuffix_head (x : GoString) :
    lastDotSuffix x = [] ∨ (lastDotSuffix x).head? = some '.' := by
  induction x with
  | nil => simp [lastDotSuffix]
  | cons a t ih =>
    by_cases ht : '.' ∈ t
    · simpa [lastDotSuffix, ht] using ih
    · by_cases ha : a = '.'
      · simp [lastDotSuffix, ht, ha]
      · simp [lastDotSuffix, ht, ha]

theorem extLoop_append (p s : GoString) :
    ∀ i, i ≤ p.length →
      extLoop (p ++ s) i = if extLoop p i = [] then [] else extLoop p i ++ s := by
  intro i
  induction i with
  | zero => intro _; simp [extLoop]
  | succ i ih =>
    intro hi
    have hlt : i < p.length := hi
    have hget : (p ++ s).getD i '/' = p.getD i '/' := by
      simp [List.getD_eq_getElem?_getD, List.getElem?_append_left hlt]
    have hdrop : List.drop i (p ++ s) = List.drop i p ++ s := by
      rw [List.drop_append_of_le_length (Nat.le_of_lt hlt)]
    have hne : List.drop i p ≠ [] := by
      simp [List.drop_eq_nil_iff]; exact hlt
    simp only [extLoop, hget, hdrop]
    generalize List.getD p i '/' = ch
    by_cases h1 : isPathSeparator ch = true
    · simp only [h1, if_true]
    · by_cases h2 : ch = '.'
      · subst h2
        simp [h1, hne]
      · simp only [h1, h2, if_false]
        exact ih (Nat.le_of_lt hlt)

theorem Ext_nil : Ext [] = [] := rfl

theorem Ext_snoc (p : GoString) (c : Char) :
    Ext (p ++ [c]) =
      if c = '/' then [] else if c = '.' then ['.']
      else if Ext p = [] then [] else Ext p ++ [c] := by
  have hget : (p ++ [c]).getD p.length '/' = c := by
    simp [List.getD_eq_getElem?_getD]
  have hdrop : List.drop p.length (p ++ [c]) = [c] := by simp
  have hlen : (p ++ [c]).length = p.length + 1 := by simp
  unfold Ext
  rw [hlen]
  simp only [extLoop, hget, hdrop, isPathSeparator, beq_iff_eq]
  by_cases h1 : c = '/'
  · simp [h1]
  · by_cases h2 : c = '.'
    · simp [h2]
    · simp only [h1, h2, if_false]
      exact extLoop_append p [c] p.length (Nat.le_refl _)

/-- The extension `filepath.Ext` computes is the suffix beginning at the last
`.` of the final element of the path. -/
theorem Ext_eq_lastDotSuffix_lastElement (f : GoString) :
    Ext f = lastDotSuffix (lastElement f) := by
  induction f using List.reverseRecOn with
  | nil => rfl
  | append_singleton p c ih =>
    rw [Ext_snoc, lastElement_snoc]
    by_cases h1 : c = '/'
    · simp [h1, lastDotSuffix]
    · simp only [h1, if_false, lastDotSuffix_snoc]
      by_cases h2 : c = '.'
      · simp [h2]
      · simp only [h2, if_false, ih, lastDotSuffix_eq_nil_iff]
        by_cases h3 : '.' ∈ lastElement p <;> simp [h3]

theorem Ext_no_separator (f : GoString) : '/' ∉ Ext f := by
  rw [Ext_eq_lastDotSuffix_lastElement]
  intro h
  exact lastElement_no_separator f (lastDotSuffix_subset _ _ h)

theorem Ext_head (f : GoString) : Ext f = [] ∨ (Ext f).head? = some '.' := by
  rw [Ext_eq_lastDotSuffix_lastElement]
  exact lastDotSuffix_head _

/-! ## Lemmas on `filepath.Join` -/

theorem uploadDir_eq : uploadDir = ['.', '/', 'u', 'p', 'l', 'o', 'a', 'd', 's'] := rfl

theorem takeWhile_no_separator (x : GoString) (h : '/' ∉ x) :
    x.takeWhile (fun c => !isPathSeparator c) = x := by
  rw [List.takeWhile_eq_self_iff]
  intro c hc
  have : c ≠ '/' := fun e => h (e ▸ hc)
  simp [isPathSeparator, this]

theorem dropWhile_no_separator (x : GoString) (h : '/' ∉ x) :
    x.dropWhile (fun c => !isPathSeparator c) = [] := by
  rw [List.dropWhile_eq_nil_iff]
  intro c hc
  have : c ≠ '/' := fun e => h (e ▸ hc)
  simp [isPathSeparator, this]

/-- A last path element of three or more bytes is neither `.` nor `..`: the
loop of `Clean` copies it after a separator. -/
theorem cleanLoop_element (fuel : Nat) (a b c : Char) (t out : GoString) (dotdot : Nat)
    (h : '/' ∉ a :: b :: c :: t) (hout : out ≠ []) :
    cleanLoop false (fuel + 2) (a :: b :: c :: t) out dotdot
      = out ++ '/' :: a :: b :: c :: t := by
  have ha : a ≠ '/' := fun e => h (by simp [e])
  have hb : b ≠ '/' := fun e => h (by simp [e])
  have hc : c ≠ '/' := fun e => h (by simp [e])
  have hlen : out.length ≠ 0 := by
    intro e; exact hout (List.length_eq_zero.mp e)
  rw [cleanLoop]
  simp only [isPathSeparator, beq_iff_eq, ha, if_false, List.head?_cons, Option.map_some',
    List.tail_cons, hb, hc, Option.some.injEq, Bool.false_eq_true, or_false, and_false,
    decide_False, decide_eq_true_eq, reduceCtorEq]
  have h1 := takeWhile_no_separator _ h
  have h2 := dropWhile_no_separator _ h
  simp only [isPathSeparator] at h1 h2
  simp only [h1, h2, hlen, cleanLoop]
  simp [hout]

theorem cleanLoop_separator (rooted : Bool) (fuel : Nat) (t out : GoString) (dotdot : Nat) :
    cleanLoop rooted (fuel + 1) ('/' :: t) out dotdot = cleanLoop rooted fuel t out dotdot := by
  rw [cleanLoop]
  simp [isPathSeparator]

theorem cleanLoop_dot (rooted : Bool) (fuel : Nat) (t out : GoString) (dotdot : Nat) :
    cleanLoop rooted (fuel + 1) ('.' :: '/' :: t) out dotdot
      = cleanLoop rooted fuel ('/' :: t) out dotdot := by
  rw [cleanLoop]
  simp [isPathSeparator]

theorem cleanLoop_uploads (fuel : Nat) (x : GoString) :
    cleanLoop false (fuel + 1) ('u' :: 'p' :: 'l' :: 'o' :: 'a' :: 'd' :: 's' :: '/' :: x) [] 0
      = cleanLoop false fuel ('/' :: x) ['u', 'p', 'l', 'o', 'a', 'd', 's'] 0 := by
  rw [cleanLoop]
  simp [isPathSeparator, List.takeWhile, List.dropWhile]

/-- The fuel `len(path) + 1` of `Clean` is enough: with more than `len(rest)`
units the loop reaches the end of `rest`, and more fuel changes nothing. -/
theorem cleanLoop_fuel (rooted : Bool) :
    ∀ (fuel : Nat) (rest out : GoString) (dotdot : Nat), rest.length < fuel →
      cleanLoop rooted (fuel + 1) rest out dotdot = cleanLoop rooted fuel rest out dotdot := by
  intro fuel
  induction fuel with
  | zero => intro rest out dotdot h; exact absurd h (Nat.not_lt_zero _)
  | succ n ih =>
    intro rest out dotdot h
    cases rest with
    | nil => simp [cleanLoop]
    | cons c t =>
      have ht : t.length < n := by simpa using h
      have htail : t.tail.length < n := by
        have : t.tail.length ≤ t.length := by simp
        omega
      rw [cleanLoop, cleanLoop]
      by_cases hc : isPathSeparator c = true
      · simp only [hc, if_true]
        exact ih _ _ _ ht
      · have hdrop : ((c :: t).dropWhile (fun x => !isPathSeparator x)).length < n := by
          have h1 : (c :: t).dropWhile (fun x => !isPathSeparator x)
              = t.dropWhile (fun x => !isPathSeparator x) := by
            simp [List.dropWhile_cons, hc]
          rw [h1]
          have : (t.dropWhile (fun x => !isPathSeparator x)).length ≤ t.length :=
            (List.dropWhile_sublist _).length_le
          omega
        simp only [hc, if_false]
        split_ifs <;>
          first
          | exact ih _ _ _ ht
          | exact ih _ _ _ htail
          | exact ih _ _ _ hdrop

theorem Clean_relative (c : Char) (t : GoString) (h : isPathSeparator c = false) :
    Clean (c :: t) =
      if (cleanLoop false (t.length + 2) (c :: t) [] 0).length = 0 then ['.']
      else cleanLoop false (t.length + 2) (c :: t) [] 0 := by
  simp [Clean, h]

/-- The path `filepath.Join(uploadDir, x)` for a name `x` of three or more
bytes without a separator is `uploads/x`. -/
theorem Join_uploadDir (x : GoString) (h : '/' ∉ x) (hlen : 3 ≤ x.length) :
    Join uploadDir x = "uploads/".toList ++ x := by
  match x, hlen with
  | a :: b :: c :: t, _ =>
    have e := cleanLoop_element (t.length + 8) a b c t ['u', 'p', 'l', 'o', 'a', 'd', 's'] 0 h
      (by simp)
    have hJ : Join uploadDir (a :: b :: c :: t)
        = Clean ('.' :: '/' :: 'u' :: 'p' :: 'l' :: 'o' :: 'a' :: 'd' :: 's' :: '/'
            :: a :: b :: c :: t) := by
      simp [Join, uploadDir_eq]
    have hfuel : ('/' :: 'u' :: 'p' :: 'l' :: 'o' :: 'a' :: 'd' :: 's' :: '/'
            :: a :: b :: c :: t).length + 2 = (t.length + 13) + 1 := by simp
    have hfuel2 : t.length + 10 = t.length + 8 + 2 := rfl
    rw [hJ, Clean_relative _ _ (by decide), hfuel, cleanLoop_dot, cleanLoop_separator,
      cleanLoop_uploads, cleanLoop_separator, hfuel2, e]
    simp

/-! ## Lemmas on the store -/

theorem Disk.read_write (d : Disk) (path : GoString) (b : Bytes) :
    (d.write path b).read path = some b := by
  simp [Disk.read, Disk.write]

theorem dbInsert_ok (env : Env) (tbl tbl1 : Table) (m : FileMeta)
    (h : dbInsert env tbl m = .ok tbl1) :
    env.insertErr = none ∧ (∀ x ∈ tbl, x.ID ≠ m.ID) ∧ tbl1 = tbl ++ [m] := by
  unfold dbInsert at h
  split at h
  · cases h
  · split at h
    · cases h
    · rename_i hany
      refine ⟨by assumption, ?_, by cases h; rfl⟩
      intro x hx e
      apply hany
      simp only [List.any_eq_true, decide_eq_true_eq]
      exact ⟨x, hx, e⟩

theorem find_append_fresh (tbl : Table) (m : FileMeta) (h : ∀ x ∈ tbl, x.ID ≠ m.ID) :
    (tbl ++ [m]).find? (fun x => x.ID = m.ID) = some m := by
  induction tbl with
  | nil => simp
  | cons a t ih =>
    have ha : a.ID ≠ m.ID := h a (List.mem_cons_self _ _)
    have ht : ∀ x ∈ t, x.ID ≠ m.ID := fun x hx => h x (List.mem_cons_of_mem _ hx)
    simp only [List.cons_append, List.find?_cons, ha, decide_False]
    exact ih ht

theorem find_absent (tbl : Table) (id : GoString) (h : ∀ x ∈ tbl, x.ID ≠ id) :
    tbl.find? (fun x => x.ID = id) = none := by
  rw [List.find?_eq_none]
  intro x hx
  simpa using h x hx

/-- A successful upload: the form held a file, the database was open, the
generated id had no row, and the run created the blob and appended the row. -/
theorem uploadHandler_ok (env : Env) (s : Store) (r : Request)
    (h : (uploadHandler env s r).outcome.status? = some StatusOK) :
    ∃ fh tbl, r.form = .ok (some fh) ∧ s.db = some tbl ∧ (∀ x ∈ tbl, x.ID ≠ env.newID) ∧
      uploadHandler env s r =
        ⟨.response StatusOK
            (.json (.object ⟨env.newID, fh.Filename, Ext fh.Filename, env.now⟩)),
          ⟨some (tbl ++ [⟨env.newID, fh.Filename, Ext fh.Filename, env.now⟩]),
            ((s.disk.write (Join uploadDir (env.newID ++ Ext fh.Filename)) []).write
              (Join uploadDir (env.newID ++ Ext fh.Filename)) fh.content)⟩,
          [.osCreate (Join uploadDir (env.newID ++ Ext fh.Filename)),
            .ioCopy (Join uploadDir (env.newID ++ Ext fh.Filename)),
            .dbInsert ⟨env.newID, fh.Filename, Ext fh.Filename, env.now⟩]⟩ := by
  unfold uploadHandler at h ⊢
  split at h
  · simp [httpError, Outcome.status?, StatusOK, StatusMethodNotAllowed] at h
  · split at h
    · simp [httpError, Outcome.status?, StatusOK, StatusBadRequest] at h
    · simp [httpError, Outcome.status?, StatusOK, StatusBadRequest] at h
    · rename_i hmeth _ fh hform
      simp only at h
      split at h
      · simp [httpError, Outcome.status?, StatusOK, StatusInternalServerError] at h
      · rename_i _ d1 hcreate
        split at h
        · simp [httpError, Outcome.status?, StatusOK, StatusInternalServerError] at h
        · rename_i _ d2 hcopy
          split at h
          · simp [Outcome.status?] at h
          · rename_i _ tbl hdb
            split at h
            · simp [httpError, Outcome.status?, StatusOK, StatusInternalServerError] at h
            · rename_i _ tbl1 hins
              obtain ⟨_, hfresh, htbl⟩ := dbInsert_ok _ _ _ _ hins
              refine ⟨fh, tbl, hform, hdb, hfresh, ?_⟩
              have hd1 : d1 = s.disk.write (Join uploadDir (env.newID ++ Ext fh.Filename)) [] := by
                unfold osCreate at hcreate
                split at hcreate
                · cases hcreate
                · cases hcreate; rfl
              have hd2 : d2 = d1.write (Join uploadDir (env.newID ++ Ext fh.Filename))
                  fh.content := by
                unfold ioCopy at hcopy
                split at hcopy
                · cases hcopy
                · cases hcopy; rfl
              subst hd1
              subst hd2
              subst htbl
              simp only [hmeth, hcreate, hcopy, hins, if_false]

/-! ## Round trip -/

/-- C1: when `uploadHandler` succeeds on a file named `f` with content `b`, it
returns the record with the generated id `i`, and a following `downloadHandler`
run with `id = i` (any method but `HEAD`, lookup not failing) looks the row up
and serves the file at `uploads/<i><extension>`, with body exactly `b`. -/
theorem C1_upload_download_round_trip (env : Env) (s : Store) (r : Request)
    (f : GoString) (b : Bytes) (env2 : Env) (r2 : Request)
    (hform : r.form = .ok (some ⟨f, b⟩))
    (hok : (uploadHandler env s r).outcome.status? = some StatusOK)
    (hlen : env.newID.length = 36) (hsep : '/' ∉ env.newID)
    (hid : r2.id = env.newID) (hget : r2.method ≠ MethodHead)
    (hdb : env2.queryRowErr = none) :
    (uploadHandler env s r).outcome
        = .response StatusOK (.json (.object ⟨env.newID, f, Ext f, env.now⟩)) ∧
      downloadHandler env2 (uploadHandler env s r).store r2
        = ⟨.response StatusOK (.file b), (uploadHandler env s r).store,
            [.dbQueryRow env.newID, .serveFile ("uploads/".toList ++ (env.newID ++ Ext f))]⟩ ∧
      (uploadHandler env s r).store.disk.read ("uploads/".toList ++ (env.newID ++ Ext f))
        = some b := by
  obtain ⟨fh, tbl, hform2, _, hfresh, hres⟩ := uploadHandler_ok env s r hok
  rw [hform] at hform2
  cases hform2
  have hne : env.newID ≠ [] := by
    intro e; rw [e] at hlen; simp at hlen
  have hx : '/' ∉ env.newID ++ Ext f := by
    simp only [List.mem_append, not_or]
    exact ⟨hsep, Ext_no_separator f⟩
  have hx3 : 3 ≤ (env.newID ++ Ext f).length := by
    simp only [List.length_append, hlen]; omega
  have hpath := Join_uploadDir _ hx hx3
  rw [hres]
  refine ⟨rfl, ?_, ?_⟩
  · simp only [downloadHandler, hid, hne, if_false, dbQueryRow, hdb]
    rw [find_append_fresh tbl ⟨env.newID, f, Ext f, env.now⟩ hfresh]
    simp only [serveFile, Disk.read_write, hget, if_false, hpath]
  · simp only [hpath, Disk.read_write]

theorem C1_upload_download_round_trip_witness :
    downloadHandler (Env.ok [] 1)
        (uploadHandler (Env.ok exampleID 0) emptyStore (uploadRequest "a.txt")).store
        (idRequest "GET" exampleID)
      = ⟨.response StatusOK (.file helloBytes),
          (uploadHandler (Env.ok exampleID 0) emptyStore (uploadRequest "a.txt")).store,
          [.dbQueryRow exampleID,
            .serveFile "uploads/123e4567-e89b-42d3-a456-426614174000.txt".toList]⟩ :=
  (C1_upload_download_round_trip (Env.ok exampleID 0) emptyStore (uploadRequest "a.txt")
    "a.txt".toList helloBytes (Env.ok [] 1) (idRequest "GET" exampleID)
    rfl (by decide) (by decide) (by decide) rfl (by decide) rfl).2.1

/-! ## Extension and blob path -/

/-- For a name without a separator the extension is the suffix from its last `.`. -/
theorem Ext_eq_lastDotSuffix (f : GoString) (h : '/' ∉ f) : Ext f = lastDotSuffix f := by
  rw [Ext_eq_lastDotSuffix_lastElement, lastElement_of_no_separator f h]

theorem baseLoop_no_separator (p : GoString) :
    ∀ i, (∀ c ∈ p.drop i, c ≠ '/') → '/' ∉ baseLoop p i := by
  intro i
  induction i with
  | zero =>
    intro h hm
    exact h '/' (by simpa [baseLoop] using hm) rfl
  | succ i ih =>
    intro h
    simp only [baseLoop]
    by_cases hs : isPathSeparator (p.getD i '/') = true
    · simp only [hs, if_true]
      intro hm
      exact h '/' hm rfl
    · simp only [hs, if_false]
      apply ih
      intro c hc
      by_cases hi : i < p.length
      · rw [List.drop_eq_getElem_cons hi] at hc
        rcases List.mem_cons.mp hc with e | e
        · intro e2
          apply hs
          have : p.getD i '/' = p[i] := by
            simp [List.getD_eq_getElem?_getD, List.getElem?_eq_getElem hi]
          rw [this, ← e, e2]
          rfl
        · exact h c e
      · have : p.drop i = [] := List.drop_eq_nil_of_le (Nat.le_of_not_lt hi)
        rw [this] at hc
        cases hc

/-- The name `filepath.Base` returns is `/` or has no separator. -/
theorem Base_shape (path : GoString) : Base path = ['/'] ∨ '/' ∉ Base path := by
  unfold Base
  by_cases h : path = []
  · simp [h]
  · simp only [h, if_false]
    by_cases hq : baseLoop (stripTrailing path path.length)
        (stripTrailing path path.length).length = []
    · simp [hq]
    · simp only [hq, if_false]
      right
      apply baseLoop_no_separator
      intro c hc
      simp at hc

/-- On a name `filepath.Base` returns, the extension is the substring from the
last `.` onward. -/
theorem Ext_Base (path : GoString) : Ext (Base path) = lastDotSuffix (Base path) := by
  rcases Base_shape path with h | h
  · rw [h]; decide
  · exact Ext_eq_lastDotSuffix _ h

/-- C7: for every filename `f` that the form parser hands to `uploadHandler`
(the name the client sent, passed through `filepath.Base` by `mime/multipart`),
when the upload succeeds the record returned and inserted holds `f` verbatim as
filename and, as extension, the substring of `f` from its last `.` onward,
empty when `f` has no `.`; the blob is written under the id followed by that
extension. -/
theorem C7_extension_derivation (env : Env) (s : Store) (r : Request)
    (clientName : GoString) (b : Bytes)
    (hform : r.form = .ok (some ⟨Base clientName, b⟩))
    (hok : (uploadHandler env s r).outcome.status? = some StatusOK) :
    (uploadHandler env s r).outcome
        = .response StatusOK
            (.json (.object
              ⟨env.newID, Base clientName, lastDotSuffix (Base clientName), env.now⟩)) ∧
      (∃ tbl, s.db = some tbl ∧
        (uploadHandler env s r).store.db
          = some (tbl ++
              [⟨env.newID, Base clientName, lastDotSuffix (Base clientName), env.now⟩])) ∧
      (uploadHandler env s r).store.disk.read
          (Join uploadDir (env.newID ++ lastDotSuffix (Base clientName))) = some b ∧
      ('.' ∉ Base clientName → lastDotSuffix (Base clientName) = []) := by
  obtain ⟨fh, tbl, hform2, hdb, _, hres⟩ := uploadHandler_ok env s r hok
  rw [hform] at hform2
  cases hform2
  rw [hres, ← Ext_Base]
  exact ⟨rfl, ⟨tbl, hdb, rfl⟩, Disk.read_write _ _ _,
    fun h => by rw [Ext_Base]; exact (lastDotSuffix_eq_nil_iff _).mpr h⟩

theorem C7_extension_derivation_witness :
    (uploadHandler (Env.ok exampleID 0) emptyStore (uploadRequest "a.txt")).outcome
      = .response StatusOK (.json (.object ⟨exampleID, "a.txt".toList, ".txt".toList, 0⟩)) :=
  (C7_extension_derivation (Env.ok exampleID 0) emptyStore (uploadRequest "a.txt")
    "docs/a.txt".toList helloBytes rfl (by decide)).1

theorem append_left_cancel_of_length (a b c d : GoString)
    (hlen : a.length = b.length) (h : a ++ c = b ++ d) : a = b :=
  (List.append_inj h hlen).1

/-- C10: the extension derived from any filename has no path separator and is
empty or begins with `.`; for a generated id (36 characters, no separator) the
path `filepath.Join(uploadDir, id+ext)` is `uploads/<id><ext>`, whose last
element `<id><ext>` has no separator, so the blob is a direct child of the
upload directory; and records with different generated ids have different blob
paths, whatever filenames their extensions come from. -/
theorem C10_blob_path_confined_injective (f f2 id id2 : GoString)
    (hlen : id.length = 36) (hsep : '/' ∉ id)
    (hlen2 : id2.length = 36) (hsep2 : '/' ∉ id2) :
    '/' ∉ Ext f ∧ (Ext f = [] ∨ (Ext f).head? = some '.') ∧
      Join uploadDir (id ++ Ext f) = "uploads/".toList ++ (id ++ Ext f) ∧
      '/' ∉ id ++ Ext f ∧
      (id ≠ id2 → Join uploadDir (id ++ Ext f) ≠ Join uploadDir (id2 ++ Ext f2)) := by
  have hx : '/' ∉ id ++ Ext f := by
    simp only [List.mem_append, not_or]
    exact ⟨hsep, Ext_no_separator f⟩
  have hx2 : '/' ∉ id2 ++ Ext f2 := by
    simp only [List.mem_append, not_or]
    exact ⟨hsep2, Ext_no_separator f2⟩
  have h3 : 3 ≤ (id ++ Ext f).length := by
    simp only [List.length_append, hlen]; omega
  have h32 : 3 ≤ (id2 ++ Ext f2).length := by
    simp only [List.length_append, hlen2]; omega
  refine ⟨Ext_no_separator f, Ext_head f, Join_uploadDir _ hx h3, hx, ?_⟩
  intro hne e
  rw [Join_uploadDir _ hx h3, Join_uploadDir _ hx2 h32] at e
  have e2 := List.append_cancel_left e
  exact hne (append_left_cancel_of_length _ _ _ _ (by rw [hlen, hlen2]) e2)

theorem C10_blob_path_confined_injective_witness :
    Join uploadDir (exampleID ++ Ext "a.tar.gz".toList)
        = "uploads/".toList ++ (exampleID ++ Ext "a.tar.gz".toList) ∧
      ("223e4567-e89b-42d3-a456-426614174000".toList ≠ exampleID →
        Join uploadDir ("223e4567-e89b-42d3-a456-426614174000".toList ++ Ext "a.tar.gz".toList)
          ≠ Join uploadDir (exampleID ++ Ext "b".toList)) :=
  ⟨(C10_blob_path_confined_injective "a.tar.gz".toList "b".toList exampleID exampleID
      (by decide) (by decide) (by decide) (by decide)).2.2.1,
   (C10_blob_path_confined_injective "a.tar.gz".toList "b".toList
      "223e4567-e89b-42d3-a456-426614174000".toList exampleID
      (by decide) (by decide) (by decide) (by decide)).2.2.2.2⟩

/-! ## Delete -/

/-- A successful delete: the row was found, the blob removed, the rows with
that id deleted. -/
theorem deleteFileHandler_ok (env : Env) (s : Store) (r : Request)
    (h : (deleteFileHandler env s r).outcome
      = .response StatusOK (.text "File deleted successfully".toList)) :
    ∃ tbl d1, r.id ≠ [] ∧ s.db = some tbl ∧
      (deleteFileHandler env s r).store = ⟨some (tbl.filter (fun x => x.ID ≠ r.id)), d1⟩ := by
  unfold deleteFileHandler at h ⊢
  split at h
  · simp at h
  · split at h
    · simp [httpError, StatusOK, StatusMethodNotAllowed] at h
    · simp only at h
      split at h
      · simp [httpError, StatusOK, StatusBadRequest] at h
      · rename_i hopt hmeth hid
        split at h
        · simp at h
        · rename_i _ tbl hdb
          split at h
          · simp [httpError, StatusOK, StatusNotFound] at h
          · rename_i _ m hrow
            split at h
            · simp [httpError, StatusOK, StatusInternalServerError] at h
            · rename_i _ d1 hrm
              split at h
              · simp [httpError, StatusOK, StatusInternalServerError] at h
              · rename_i _ tbl1 hdel
                have htbl : tbl1 = tbl.filter (fun x => x.ID ≠ r.id) := by
                  unfold dbDelete at hdel
                  split at hdel
                  · cases hdel
                  · cases hdel; rfl
                subst htbl
                refine ⟨tbl, d1, hid, hdb, ?_⟩
                simp only [hopt, hmeth, hid, hrow, hrm, hdel, if_false]

theorem scanRows_subset (env : Env) (rows : List FileMeta) :
    ∀ (k : Nat) (files fs : Slice), scanRows env rows k files = .ok fs →
      ∀ x ∈ fs.getD [], x ∈ files.getD [] ∨ x ∈ rows := by
  induction rows with
  | nil =>
    intro k files fs h x hx
    simp only [scanRows] at h
    cases h
    exact Or.inl hx
  | cons m rest ih =>
    intro k files fs h x hx
    have happ : ∀ y ∈ (Slice.append files m).getD [], y ∈ files.getD [] ∨ y = m := by
      intro y hy
      cases files with
      | none => simpa [Slice.append] using hy
      | some l => simpa [Slice.append] using hy
    have hrec : scanRows env rest (k + 1) (Slice.append files m) = .ok fs →
        x ∈ files.getD [] ∨ x ∈ m :: rest := by
      intro h2
      rcases ih _ _ _ h2 x hx with h3 | h3
      · rcases happ x h3 with h4 | h4
        · exact Or.inl h4
        · exact Or.inr (by simp [h4])
      · exact Or.inr (List.mem_cons_of_mem _ h3)
    simp only [scanRows] at h
    split at h
    · cases h
      exact Or.inl hx
    · split at h
      · split at h
        · cases h
        · exact hrec h
      · exact hrec h

/-- Without a failing call the loop of `listFilesHandler` appends every row. -/
theorem scanRows_all (env : Env) (hnext : env.nextErr = none) (hscan : env.scanErr = none)
    (rows : List FileMeta) :
    ∀ (k : Nat) (files : Slice), rows ≠ [] →
      scanRows env rows k files = .ok (some (files.getD [] ++ rows)) := by
  induction rows with
  | nil => intro k files h; exact absurd rfl h
  | cons m rest ih =>
    intro k files _
    simp only [scanRows, hnext, hscan, reduceCtorEq, if_false]
    cases rest with
    | nil =>
      cases files <;> simp [scanRows, Slice.append]
    | cons m2 rest2 =>
      rw [ih (k + 1) (Slice.append files m) (by simp)]
      cases files <;> simp [Slice.append]

/-- The records `listFilesHandler` returns are rows of the table. -/
theorem listFilesHandler_records_subset (env : Env) (tbl : Table) (d : Disk) (r : Request) :
    ∀ x ∈ (listFilesHandler env ⟨some tbl, d⟩ r).outcome.records, x ∈ tbl := by
  intro x hx
  unfold listFilesHandler at hx
  simp only at hx
  split at hx
  · simp [httpError, Outcome.records] at hx
  · split at hx
    · simp [httpError, Outcome.records] at hx
    · rename_i files hfiles
      cases files with
      | none => simp [encodeSlice, Outcome.records] at hx
      | some l =>
        have := scanRows_subset env tbl 0 none (some l) hfiles x
          (by simpa [encodeSlice, Outcome.records] using hx)
        simpa using this

/-- With no failing call and a non-empty table, `listFilesHandler` answers 200
with the array of all rows in table order. -/
theorem listFilesHandler_array (env : Env) (tbl : Table) (d : Disk) (r : Request)
    (hq : env.queryErr = none) (hnext : env.nextErr = none) (hscan : env.scanErr = none)
    (hne : tbl ≠ []) :
    listFilesHandler env ⟨some tbl, d⟩ r
      = ⟨.response StatusOK (.json (.array tbl)), ⟨some tbl, d⟩, [.dbQuery]⟩ := by
  simp [listFilesHandler, hq, scanRows_all env hnext hscan tbl 0 none hne, encodeSlice]

/-- C2: when `deleteFileHandler` (method `DELETE`, non-empty id) finds the row
and `os.Remove` of the blob fails, the response is 500, the store is unchanged
with the row still in the table, and no `DELETE` statement is issued. -/
theorem C2_delete_blob_removal_failure (env : Env) (s : Store) (r : Request)
    (tbl : Table) (m : FileMeta) (e : GoString)
    (hmeth : r.method = MethodDelete) (hid : r.id ≠ [])
    (hdb : s.db = some tbl) (hrow : dbQueryRow env tbl r.id = .ok m)
    (hrm : osRemove env s.disk (Join uploadDir (m.ID ++ m.Extension)) = .error e) :
    (deleteFileHandler env s r).outcome
        = httpError ("Error deleting file from disk: ".toList ++ e) StatusInternalServerError ∧
      (deleteFileHandler env s r).outcome.status? = some 500 ∧
      (deleteFileHandler env s r).store = s ∧
      (deleteFileHandler env s r).store.db = some tbl ∧ m ∈ tbl ∧ m.ID = r.id ∧
      (∀ id, Call.dbDelete id ∉ (deleteFileHandler env s r).calls) := by
  have hopt : r.method ≠ MethodOptions := by rw [hmeth]; decide
  have hfind : m ∈ tbl ∧ m.ID = r.id := by
    unfold dbQueryRow at hrow
    split at hrow
    · cases hrow
    · split at hrow
      · cases hrow
      · rename_i m2 hf
        cases hrow
        exact ⟨List.mem_of_find?_eq_some hf, by simpa using List.find?_some hf⟩
  have hres : deleteFileHandler env s r
      = ⟨httpError ("Error deleting file from disk: ".toList ++ e) StatusInternalServerError, s,
          [.dbQueryRow r.id, .osRemove (Join uploadDir (m.ID ++ m.Extension))]⟩ := by
    have hne : MethodDelete ≠ MethodOptions := by decide
    simp only [deleteFileHandler, hmeth, hne, hid, hdb, hrow, hrm, if_false,
      ne_eq, not_true_eq_false]
  rw [hres]
  refine ⟨rfl, rfl, rfl, hdb, hfind.1, hfind.2, ?_⟩
  intro id hmem
  simp at hmem

theorem C2_delete_blob_removal_failure_witness :
    (deleteFileHandler removeFails uploadedStore (idRequest "DELETE" exampleID)).outcome.status?
        = some 500 ∧
      (deleteFileHandler removeFails uploadedStore (idRequest "DELETE" exampleID)).store
        = uploadedStore :=
  have h := C2_delete_blob_removal_failure removeFails uploadedStore
    (idRequest "DELETE" exampleID) [uploadedMeta] uploadedMeta "permission denied".toList
    (by decide) (by decide) (by decide) rfl rfl
  ⟨h.2.1, h.2.2.1⟩

/-- C3: after `deleteFileHandler` (method `DELETE`, `id = i`) answers 200 with
body `File deleted successfully`, the records of any `listFilesHandler` run
contain no record with id `i`, and any `downloadHandler` run with `id = i`
answers 404. -/
theorem C3_delete_then_list_download (env : Env) (s : Store) (r : Request)
    (env2 env3 : Env) (r2 r3 : Request)
    (hmeth : r.method = MethodDelete)
    (hout : (deleteFileHandler env s r).outcome
      = .response StatusOK (.text "File deleted successfully".toList))
    (hid : r3.id = r.id) :
    (∀ x ∈ (listFilesHandler env2 (deleteFileHandler env s r).store r2).outcome.records,
        x.ID ≠ r.id) ∧
      (downloadHandler env3 (deleteFileHandler env s r).store r3).outcome
        = httpError "File not found".toList StatusNotFound ∧
      (downloadHandler env3 (deleteFileHandler env s r).store r3).outcome.status? = some 404 := by
  have _ := hmeth
  obtain ⟨tbl, d1, hne, _, hstore⟩ := deleteFileHandler_ok env s r hout
  rw [hstore]
  have habs : ∀ x ∈ tbl.filter (fun x => x.ID ≠ r.id), x.ID ≠ r.id := by
    intro x hx
    simpa using (List.mem_filter.mp hx).2
  have hdl : (downloadHandler env3 ⟨some (tbl.filter (fun x => x.ID ≠ r.id)), d1⟩ r3).outcome
      = httpError "File not found".toList StatusNotFound := by
    simp only [downloadHandler, hid, hne, if_false, dbQueryRow]
    cases env3.queryRowErr with
    | some e => rfl
    | none => simp only [find_absent _ _ habs]
  refine ⟨?_, hdl, ?_⟩
  · intro x hx
    exact habs x (listFilesHandler_records_subset env2 _ d1 r2 x hx)
  · rw [hdl]; rfl

theorem C3_delete_then_list_download_witness :
    (downloadHandler (Env.ok [] 2)
        (deleteFileHandler (Env.ok [] 1) uploadedStore (idRequest "DELETE" exampleID)).store
        (idRequest "GET" exampleID)).outcome.status? = some 404 :=
  (C3_delete_then_list_download (Env.ok [] 1) uploadedStore (idRequest "DELETE" exampleID)
    (Env.ok [] 2) (Env.ok [] 2) (idRequest "GET" []) (idRequest "GET" exampleID)
    (by decide) (by decide) rfl).2.2

/-! ## Unknown and missing id -/

/-- C4: for a non-empty id without a row in the table, `downloadHandler`
answers 404 and `deleteFileHandler` (method `DELETE`) answers 404, whatever
the outcome of the library calls, and both leave the table and the disk
unchanged. -/
theorem C4_unknown_id_not_found (env env2 : Env) (s : Store) (r r2 : Request) (tbl : Table)
    (hid : r.id ≠ []) (hdb : s.db = some tbl) (hrow : ∀ x ∈ tbl, x.ID ≠ r.id)
    (hid2 : r2.id = r.id) (hmeth : r2.method = MethodDelete) :
    (downloadHandler env s r).outcome.status? = some 404 ∧
      (downloadHandler env s r).store = s ∧
      (deleteFileHandler env2 s r2).outcome.status? = some 404 ∧
      (deleteFileHandler env2 s r2).store = s := by
  have hne : MethodDelete ≠ MethodOptions := by decide
  have hdl : downloadHandler env s r
      = ⟨httpError "File not found".toList StatusNotFound, s, [.dbQueryRow r.id]⟩ := by
    simp only [downloadHandler, hid, if_false, hdb, dbQueryRow]
    cases env.queryRowErr with
    | some e => rfl
    | none => simp only [find_absent _ _ hrow]
  have hde : deleteFileHandler env2 s r2
      = ⟨httpError "File not found".toList StatusNotFound, s, [.dbQueryRow r.id]⟩ := by
    simp only [deleteFileHandler, hmeth, hne, hid2, hid, if_false, hdb, dbQueryRow,
      ne_eq, not_true_eq_false]
    cases env2.queryRowErr with
    | some e => rfl
    | none => simp only [find_absent _ _ hrow]
  rw [hdl, hde]
  exact ⟨rfl, rfl, rfl, rfl⟩

theorem C4_unknown_id_not_found_witness :
    (downloadHandler (Env.ok [] 1) uploadedStore
        (idRequest "GET" "223e4567-e89b-42d3-a456-426614174000".toList)).outcome.status?
        = some 404 ∧
      (deleteFileHandler (Env.ok [] 1) uploadedStore
        (idRequest "DELETE" "223e4567-e89b-42d3-a456-426614174000".toList)).outcome.status?
        = some 404 :=
  have h := C4_unknown_id_not_found (Env.ok [] 1) (Env.ok [] 1) uploadedStore
    (idRequest "GET" "223e4567-e89b-42d3-a456-426614174000".toList)
    (idRequest "DELETE" "223e4567-e89b-42d3-a456-426614174000".toList)
    [uploadedMeta] (by decide) (by decide) (by decide) rfl (by decide)
  ⟨h.1, h.2.2.1⟩

/-- C5, as stated, fails: an `OPTIONS` request without id to `deleteFileHandler`
is answered 200 with an empty body, not with a 4xx status; behind
`corsMiddleware` the answer is the same. -/
theorem C5_missing_id_counterexample :
    (deleteFileHandler (Env.ok [] 0) emptyStore (idRequest "OPTIONS" [])).outcome
        = .response 200 .empty ∧
      (corsMiddleware deleteFileHandler (Env.ok [] 0) emptyStore
        (idRequest "OPTIONS" [])).outcome = .response 200 .empty ∧
      ¬ ∃ st, (deleteFileHandler (Env.ok [] 0) emptyStore
          (idRequest "OPTIONS" [])).outcome.status? = some st ∧ 400 ≤ st ∧ st < 500 := by
  refine ⟨by decide, by decide, ?_⟩
  rintro ⟨st, h, h4, _⟩
  have h2 : (deleteFileHandler (Env.ok [] 0) emptyStore
      (idRequest "OPTIONS" [])).outcome.status? = some 200 := by decide
  rw [h2] at h
  cases h
  omega

/-- C5, amended: a request without id (absent or empty) to `downloadHandler`
is answered 400; one to `deleteFileHandler` is answered 400 when its method is
`DELETE` and 405 when its method is neither `DELETE` nor `OPTIONS`; in each
case the handler returns without any call to the database or the filesystem
and with the store unchanged, also when `db` is `nil`.  An `OPTIONS` request to
`deleteFileHandler`, with or without id, is answered 200 with an empty body,
also without a call and with the store unchanged. -/
theorem C5_missing_id_client_error (env : Env) (s : Store) (r r2 : Request)
    (hid : r.id = []) (hid2 : r2.id = []) :
    downloadHandler env s r
        = ⟨httpError "Missing id parameter".toList StatusBadRequest, s, []⟩ ∧
      (downloadHandler env s r).outcome.status? = some 400 ∧
      (r2.method = MethodDelete →
        deleteFileHandler env s r2
            = ⟨httpError "Missing id parameter".toList StatusBadRequest, s, []⟩ ∧
          (deleteFileHandler env s r2).outcome.status? = some 400) ∧
      (r2.method ≠ MethodDelete → r2.method ≠ MethodOptions →
        deleteFileHandler env s r2
            = ⟨httpError "Method not allowed".toList StatusMethodNotAllowed, s, []⟩ ∧
          (deleteFileHandler env s r2).outcome.status? = some 405) ∧
      (∀ r3 : Request, r3.method = MethodOptions →
        deleteFileHandler env s r3 = ⟨.response StatusOK .empty, s, []⟩ ∧
          (deleteFileHandler env s r3).outcome.status? = some 200) := by
  have hdl : downloadHandler env s r
      = ⟨httpError "Missing id parameter".toList StatusBadRequest, s, []⟩ := by
    simp only [downloadHandler, hid, if_true]
  refine ⟨hdl, by rw [hdl]; rfl, ?_, ?_, ?_⟩
  · intro hdel
    have hne : MethodDelete ≠ MethodOptions := by decide
    have hde : deleteFileHandler env s r2
        = ⟨httpError "Missing id parameter".toList StatusBadRequest, s, []⟩ := by
      simp only [deleteFileHandler, hdel, hne, hid2, if_true, if_false, ne_eq,
        not_true_eq_false]
    exact ⟨hde, by rw [hde]; rfl⟩
  · intro hdel hopt
    have hde : deleteFileHandler env s r2
        = ⟨httpError "Method not allowed".toList StatusMethodNotAllowed, s, []⟩ := by
      simp only [deleteFileHandler, hopt, hdel, if_true, if_false, ne_eq, not_false_eq_true]
    exact ⟨hde, by rw [hde]; rfl⟩
  · intro r3 hopt
    have hde : deleteFileHandler env s r3 = ⟨.response StatusOK .empty, s, []⟩ := by
      simp only [deleteFileHandler, hopt, if_true]
    exact ⟨hde, by rw [hde]; rfl⟩

theorem C5_missing_id_client_error_witness :
    (downloadHandler (Env.ok [] 0) ⟨none, []⟩ (idRequest "GET" [])).outcome.status? = some 400 ∧
      (deleteFileHandler (Env.ok [] 0) ⟨none, []⟩ (idRequest "DELETE" [])).outcome.status?
        = some 400 ∧
      (deleteFileHandler (Env.ok [] 0) ⟨none, []⟩ (idRequest "PUT" [])).outcome.status?
        = some 405 ∧
      (deleteFileHandler (Env.ok [] 0) uploadedStore (idRequest "OPTIONS" exampleID)).outcome
        = .response StatusOK .empty :=
  have h := C5_missing_id_client_error (Env.ok [] 0) ⟨none, []⟩ (idRequest "GET" [])
    (idRequest "DELETE" []) rfl rfl
  have h2 := C5_missing_id_client_error (Env.ok [] 0) ⟨none, []⟩ (idRequest "GET" [])
    (idRequest "PUT" []) rfl rfl
  have h3 := C5_missing_id_client_error (Env.ok [] 0) uploadedStore (idRequest "GET" [])
    (idRequest "DELETE" []) rfl rfl
  ⟨h.2.1, (h.2.2.1 (by decide)).2, (h2.2.2.2.1 (by decide) (by decide)).2,
    by rw [(h3.2.2.2.2 (idRequest "OPTIONS" exampleID) (by decide)).1]⟩

/-! ## List -/

/-- C6, as stated, fails: after a second successful upload of a file named
`a.txt` the list holds two records with filename `a.txt` and extension `.txt`. -/
theorem C6_upload_then_list_counterexample :
    (uploadHandler (Env.ok secondID 1) uploadedStore (uploadRequest "a.txt")).outcome.status?
        = some 200 ∧
      (listFilesHandler (Env.ok [] 2) uploadedTwiceStore (idRequest "GET" [])).outcome.records
        = [⟨exampleID, "a.txt".toList, ".txt".toList, 0⟩,
            ⟨secondID, "a.txt".toList, ".txt".toList, 1⟩] ∧
      ((listFilesHandler (Env.ok [] 2) uploadedTwiceStore
          (idRequest "GET" [])).outcome.records.filter
        (fun x => decide (x.FileName = "a.txt".toList ∧ x.Extension = Ext "a.txt".toList))).length
        = 2 := by
  decide

/-- C6, amended: after `uploadHandler` succeeds on a file named `f`, a
`listFilesHandler` run whose store read does not fail answers 200 with the
array of the previous rows followed by the new record; exactly one record of
it has the returned id, and that record has filename `f` and the extension
derived from `f`; the number of records with that filename and extension is
one more than before the upload. -/
theorem C6_upload_then_list (env : Env) (s : Store) (r : Request) (f : GoString) (b : Bytes)
    (env2 : Env) (r2 : Request)
    (hform : r.form = .ok (some ⟨f, b⟩))
    (hok : (uploadHandler env s r).outcome.status? = some StatusOK)
    (hq : env2.queryErr = none) (hnext : env2.nextErr = none) (hscan : env2.scanErr = none) :
    ∃ tbl : Table, s.db = some tbl ∧
      (listFilesHandler env2 (uploadHandler env s r).store r2).outcome
        = .response StatusOK (.json (.array (tbl ++ [FileMeta.mk env.newID f (Ext f) env.now]))) ∧
      (tbl ++ [FileMeta.mk env.newID f (Ext f) env.now]).filter
          (fun x => decide (x.ID = env.newID))
        = [FileMeta.mk env.newID f (Ext f) env.now] ∧
      (tbl ++ [FileMeta.mk env.newID f (Ext f) env.now]).countP
          (fun x => decide (x.FileName = f ∧ x.Extension = Ext f))
        = tbl.countP (fun x => decide (x.FileName = f ∧ x.Extension = Ext f)) + 1 := by
  obtain ⟨fh, tbl, hform2, hdb, hfresh, hres⟩ := uploadHandler_ok env s r hok
  rw [hform] at hform2
  cases hform2
  refine ⟨tbl, hdb, ?_, ?_, ?_⟩
  · rw [hres]
    simp only
    rw [listFilesHandler_array env2 _ _ r2 hq hnext hscan (by simp)]
  · rw [List.filter_append]
    have : tbl.filter (fun x => decide (x.ID = env.newID)) = [] := by
      rw [List.filter_eq_nil_iff]
      intro x hx
      simpa using hfresh x hx
    rw [this]
    simp
  · rw [List.countP_append]
    simp

theorem C6_upload_then_list_witness :
    ∃ tbl : Table, uploadedStore.db = some tbl ∧
      (listFilesHandler (Env.ok [] 2) uploadedTwiceStore (idRequest "GET" [])).outcome
        = .response StatusOK
            (.json (.array (tbl ++ [FileMeta.mk secondID "a.txt".toList ".txt".toList 1]))) :=
  have ⟨tbl, h1, h2, _⟩ := C6_upload_then_list (Env.ok secondID 1) uploadedStore
    (uploadRequest "a.txt") "a.txt".toList helloBytes (Env.ok [] 2) (idRequest "GET" [])
    rfl (by decide) rfl rfl rfl
  ⟨tbl, h1, h2⟩

/-- C8 at the empty store: the read succeeds and `listFilesHandler` answers 200
with the JSON document `null`, which is not a JSON array. -/
theorem C8_list_empty_store_null (newID : GoString) (now : Nat) (d : Disk) (r : Request) :
    (listFilesHandler (Env.ok newID now) ⟨some [], d⟩ r).outcome
        = .response StatusOK (.json .null) ∧
      ∀ ms, (listFilesHandler (Env.ok newID now) ⟨some [], d⟩ r).outcome
        ≠ .response StatusOK (.json (.array ms)) := by
  have h : (listFilesHandler (Env.ok newID now) ⟨some [], d⟩ r).outcome
      = .response StatusOK (.json .null) := rfl
  refine ⟨h, ?_⟩
  intro ms e
  rw [h] at e
  cases e

/-! ## Database failures -/

/-- C9 at failing database calls: a failed single-row lookup is answered 404
`File not found` by `downloadHandler` and by `deleteFileHandler`, although the
row exists; a failed row iteration is answered 200 with the rows read so far. -/
theorem C9_database_failure_not_500 :
    (downloadHandler lookupFails uploadedStore (idRequest "GET" exampleID)).outcome
        = httpError "File not found".toList 404 ∧
      (deleteFileHandler lookupFails uploadedStore (idRequest "DELETE" exampleID)).outcome
        = httpError "File not found".toList 404 ∧
      (listFilesHandler iterationFails uploadedTwiceStore (idRequest "GET" [])).outcome
        = .response 200 (.json (.array [⟨exampleID, "a.txt".toList, ".txt".toList, 0⟩])) := by
  decide

theorem scanRows_scan_failure (env : Env) (j : Nat) (e : GoString)
    (hnext : env.nextErr = none) (hscan : env.scanErr = some (j, e)) (rows : List FileMeta) :
    ∀ (k : Nat) (files : Slice), k ≤ j → j < k + rows.length →
      scanRows env rows k files = .error e := by
  induction rows with
  | nil => intro k files h1 h2; simp at h2; omega
  | cons m rest ih =>
    intro k files h1 h2
    simp only [scanRows, hnext, hscan, reduceCtorEq, if_false]
    by_cases hjk : j = k
    · simp [hjk]
    · simp only [hjk, if_false]
      apply ih
      · omega
      · simp only [List.length_cons] at h2; omega

/-- The database calls whose failure the handlers do answer with 500 and the
error message: the `INSERT`, `db.Query`, `rows.Scan` and the `DELETE`. -/
theorem database_failure_500 (env : Env) (s : Store) (r : Request) (tbl : Table) (e : GoString)
    (hdb : s.db = some tbl) :
    (∀ fh, r.method = MethodPost → r.form = .ok (some fh) → env.createErr = none →
        env.copyErr = none → env.insertErr = some e →
        (uploadHandler env s r).outcome
          = httpError ("Database error: ".toList ++ e) StatusInternalServerError) ∧
      (env.queryErr = some e →
        (listFilesHandler env s r).outcome = httpError e StatusInternalServerError) ∧
      (∀ j, env.queryErr = none → env.nextErr = none → env.scanErr = some (j, e) →
        j < tbl.length →
        (listFilesHandler env s r).outcome = httpError e StatusInternalServerError) ∧
      (∀ m d1, r.method = MethodDelete → r.id ≠ [] → dbQueryRow env tbl r.id = .ok m →
        osRemove env s.disk (Join uploadDir (m.ID ++ m.Extension)) = .ok d1 →
        env.deleteErr = some e →
        (deleteFileHandler env s r).outcome
          = httpError ("Error deleting metadata: ".toList ++ e) StatusInternalServerError) := by
  refine ⟨?_, ?_, ?_, ?_⟩
  · intro fh hm hf hc hcp hi
    simp only [uploadHandler, hm, hf, osCreate, hc, ioCopy, hcp, hdb, dbInsert, hi, ne_eq,
      not_true_eq_false, if_false]
  · intro hq
    simp only [listFilesHandler, hdb, hq]
  · intro j hq hn hs hj
    simp only [listFilesHandler, hdb, hq,
      scanRows_scan_failure env j e hn hs tbl 0 none (Nat.zero_le _) (by omega)]
  · intro m d1 hm hid hrow hrm hd
    have hne : MethodDelete ≠ MethodOptions := by decide
    simp only [deleteFileHandler, hm, hne, hid, hdb, hrow, hrm, dbDelete, hd, ne_eq,
      not_true_eq_false, if_false]

/-! ## Values of the path functions -/

theorem Ext_values :
    Ext "a.txt".toList = ".txt".toList ∧ Ext "a.b/c".toList = [] ∧
      Ext "..".toList = ".".toList ∧ Ext "archive.tar.gz".toList = ".gz".toList ∧
      Ext "README".toList = [] := by
  decide

theorem Clean_values :
    Clean "./uploads/abc.txt".toList = "uploads/abc.txt".toList ∧
      Clean "a/b/../../../c/".toList = "../c".toList ∧
      Clean "/a/./b/../..//c".toList = "/c".toList ∧
      Clean "/..".toList = "/".toList ∧
      Clean "abc/def/..".toList = "abc".toList ∧
      Clean [] = ".".toList := by
  decide

theorem Base_values :
    Base "a.b/c".toList = "c".toList ∧ Base "docs/a.txt".toList = "a.txt".toList ∧
      Base "a.txt".toList = "a.txt".toList ∧ Base "dir/".toList = "dir".toList ∧
      Base "//".toList = "/".toList ∧ Base [] = ".".toList ∧
      Base "a/..".toList = "..".toList := by
  decide

theorem Join_values :
    Join uploadDir "x/../y".toList = "uploads/y".toList ∧
      Join uploadDir [] = "uploads".toList := by
  decide

end Zencloud
